import Mathlib

/-!
Verification of the graph engine in `src/backend/langflow/graph/graph/base.py`
(class `Graph`).  Python objects are embedded shallowly:

* a `Vertex` keeps the fields the engine reads (`id`, `vertex_type`, its
  resolved behaviour class, its `params` dict and a counter of
  `_build_params` invocations);
* a `ContractEdge` keeps the two endpoint vertices, as built by
  `Graph._build_edges`;
* the visitation dictionary `state = {node: 0 for node in self.vertices}` is
  embedded as a total function `String → Nat` over vertex identifiers
  (vertex identifiers are unique within a graph per the data model, so
  keying by id is equivalent to keying by vertex object; lookups outside
  the vertex set, which would raise `KeyError` in Python, are only reachable
  for inputs that violate the edge-endpoint invariant and every theorem
  below assumes that invariant);
* Python's recursion is embedded with an explicit fuel argument; exhausting
  the fuel yields the artificial error `PyError.fuelOut`, which is proved
  unreachable for well-formed graphs when the fuel is `#vertices + 1`.
-/

/-- Errors raised by the embedded Python code.  `cycleError` is the
`ValueError("Graph contains a cycle, ...")` of both sorts, `attributeError`
is an `AttributeError` for the named attribute, and the remaining
constructors carry the data interpolated into the corresponding Python
error message.  `fuelOut` is an artifact of the bounded-recursion embedding
and is proven unreachable on well-formed graphs. -/
inductive PyError where
  | cycleError
  | attributeError (attr : String)
  | sourceNotFound (id : String)
  | targetNotFound (id : String)
  | disconnected (vertexType : String)
  | invalidPayload (keysFound : List String)
  | typeError
  | fuelOut
deriving DecidableEq, Repr

/-- Behaviour classes a node can resolve to.  `VERTEX_TYPE_MAP` values and
the classes named in `base.py` are all of this kind; `vertex` is the generic
`Vertex` fallback and `fileToolVertex` is `FileToolVertex`. -/
inductive VertexClass where
  | llmVertex
  | toolkitVertex
  | fileToolVertex
  | vertex
  | otherClass (name : String)
deriving DecidableEq, Repr

/-- A built vertex.  `params` embeds the Python params dict; `builtCount`
counts how many times `_build_params` ran on this vertex (0 at creation).
`vertex_type` is the node's declared type string (modelled from the spec:
the `Vertex` base class, which sets `vertex_type` from the raw node data,
is outside `src/`). -/
structure Vertex where
  id : String
  vertex_type : String
  cls : VertexClass
  params : String → Option String
  builtCount : Nat
  is_top_level : Bool

/-- An edge as built by `Graph._build_edges`: it holds the two endpoint
vertices (`ContractEdge(source, target, edge)`; the raw handle metadata is
not read by any code under verification). -/
structure ContractEdge where
  source : Vertex
  target : Vertex

/-- The constructed graph: the vertex collection and edge collection owned
by the Python `Graph` object after `_build_graph`. -/
structure Graph where
  vertices : List Vertex
  edges : List ContractEdge

/-- Identifier list of the graph's vertices, in collection order. -/
def ids (g : Graph) : List String :=
  g.vertices.map (·.id)

/-- The list `node.edges` of the vertex with identifier `v`: the cross
registration loop in `_build_graph` appends each built edge to
`edge.source.edges` and then to `edge.target.edges`, scanning edges in
collection order. -/
def incidentEdges (es : List ContractEdge) (v : String) : List ContractEdge :=
  match es with
  | [] => []
  | e :: rest =>
      ((if e.source.id = v then [e] else []) ++ (if e.target.id = v then [e] else []))
        ++ incidentEdges rest v

/-- Targets explored from vertex `v` by the dfs loop
`for edge in node.edges: if edge.source == node: dfs(edge.target)`. -/
def outTargets (g : Graph) (v : String) : List String :=
  ((incidentEdges g.edges v).filter (fun e => e.source.id == v)).map (·.target.id)

/-- Dictionary update `state[v] = n`. -/
def setSt (st : String → Nat) (v : String) (n : Nat) : String → Nat :=
  fun u => if u = v then n else st u

/-- Runs `step` over a list threading the accumulator, stopping at the first
raised error: the embedding of a Python `for` loop whose body may raise. -/
def foldSteps (step : σ → α → Except PyError σ) : σ → List α → Except PyError σ
  | s, [] => .ok s
  | s, a :: l =>
      match step s a with
      | .error e => .error e
      | .ok s' => foldSteps step s' l

/-- The inner `dfs` of `Graph.topological_sort`.  The accumulator pairs the
`state` dict with `sorted_vertices`; states are 0 = unvisited, 1 = visiting,
2 = visited, exactly as in the source.  `fuel` bounds the recursion depth
(Python has no such bound; `fuelOut` is proven unreachable for well-formed
graphs given fuel `#vertices + 1`). -/
def dfs (g : Graph) : Nat → (String → Nat) × List String → String →
    Except PyError ((String → Nat) × List String)
  | fuel, (st, sorted), v =>
    if st v = 1 then .error .cycleError
    else if st v = 0 then
      match fuel with
      | 0 => .error .fuelOut
      | f + 1 =>
          match foldSteps (dfs g f) (setSt st v 1, sorted) (outTargets g v) with
          | .error e => .error e
          | .ok (st2, s2) => .ok (setSt st2 v 2, s2 ++ [v])
    else .ok (st, sorted)

/-- The top-level loop of `topological_sort`:
`for node in self.vertices: if state[node] == 0: dfs(node)`. -/
def visitAll (g : Graph) (fuel : Nat) :
    (String → Nat) × List String → List String →
    Except PyError ((String → Nat) × List String)
  | (st, sorted), [] => .ok (st, sorted)
  | (st, sorted), v :: vs =>
      if st v = 0 then
        match dfs g fuel (st, sorted) v with
        | .error e => .error e
        | .ok acc2 => visitAll g fuel acc2 vs
      else visitAll g fuel (st, sorted) vs

/-- The `sorted_vertices` list of `Graph.topological_sort` in append order
(depth-first post-order), before the final reversal. -/
def postOrderAppend (g : Graph) : Except PyError (List String) :=
  match visitAll g (g.vertices.length + 1) (fun _ => 0, []) (ids g) with
  | .error e => .error e
  | .ok (_, sorted) => .ok sorted

/-- `Graph.topological_sort`: the reverse of the depth-first post-order
append order, or the cycle error. -/
def topological_sort (g : Graph) : Except PyError (List String) :=
  (postOrderAppend g).map List.reverse

/-- Directed edge relation of the graph, on identifiers. -/
def HasEdge (g : Graph) (a b : String) : Prop :=
  ∃ e ∈ g.edges, e.source.id = a ∧ e.target.id = b

/-- Reachability along one or more edges. -/
def ReachesPlus (g : Graph) : String → String → Prop :=
  Relation.TransGen (HasEdge g)

/-- The graph has no directed cycle. -/
def Acyclic (g : Graph) : Prop :=
  ∀ v, ¬ ReachesPlus g v v

/-- Every edge's endpoints are members of the vertex collection — the
invariant `_build_edges` establishes at construction time. -/
def Wellformed (g : Graph) : Prop :=
  ∀ e ∈ g.edges, e.source.id ∈ ids g ∧ e.target.id ∈ ids g

/-- A raw node record, reduced to the fields the engine reads:
`node["id"]`, `node["data"]["type"]` and
`node["data"]["node"]["template"]["_type"]`. -/
structure RawNode where
  id : String
  node_type : String
  node_lc_type : String
deriving DecidableEq, Repr

/-- A raw edge record, reduced to the fields the engine reads:
`edge["source"]` and `edge["target"]`. -/
structure RawEdgeRec where
  source : String
  target : String
deriving DecidableEq, Repr

/-- Reading `self.nodes` in `layered_topological_sort`.  Neither `__init__`
nor `_build_graph` ever assigns a `nodes` attribute on `Graph` (they assign
`_nodes`, `vertices` and `edges`), so the method's first expression
`{node: 0 for node in self.nodes}` raises `AttributeError` on every graph. -/
def graph_nodes_attribute : Graph → Except PyError (List Vertex) :=
  fun _ => .error (.attributeError "nodes")

/-- The `while len(layers) <= current_layer: layers.append([])` loop. -/
def padLayers (layers : List (List String)) (cl : Nat) : List (List String) :=
  layers ++ List.replicate (cl + 1 - layers.length) []

/-- The statement `layers[current_layer].append(node)`. -/
def appendAt : List (List String) → Nat → String → List (List String)
  | [], _, _ => []
  | l :: ls, 0, v => (l ++ [v]) :: ls
  | l :: ls, n + 1, v => l :: appendAt ls n v

/-- The inner `dfs(node, current_layer)` of `layered_topological_sort`
(dead code in the source: the surrounding method has already raised before
its first call; the vertex `layer` attribute side effect is not modelled
for the same reason). -/
def ldfs (g : Graph) : Nat → (String → Nat) × List (List String) → String × Nat →
    Except PyError ((String → Nat) × List (List String))
  | fuel, (st, layers), (v, cl) =>
    if st v = 1 then .error .cycleError
    else if st v = 0 then
      match fuel with
      | 0 => .error .fuelOut
      | f + 1 =>
          match foldSteps (fun a t => ldfs g f a (t, cl + 1))
              (setSt st v 1, layers) (outTargets g v) with
          | .error e => .error e
          | .ok (st2, ly2) => .ok (setSt st2 v 2, appendAt (padLayers ly2 cl) cl v)
    else .ok (st, layers)

/-- The top-level loop of `layered_topological_sort` (dead code, see
`graph_nodes_attribute`). -/
def lvisitAll (g : Graph) (fuel : Nat) :
    (String → Nat) × List (List String) → List String →
    Except PyError ((String → Nat) × List (List String))
  | (st, layers), [] => .ok (st, layers)
  | (st, layers), v :: vs =>
      if st v = 0 then
        match ldfs g fuel (st, layers) (v, 0) with
        | .error e => .error e
        | .ok a2 => lvisitAll g fuel a2 vs
      else lvisitAll g fuel (st, layers) vs

/-- `Graph.layered_topological_sort`.  Its first statement reads the
nonexistent `self.nodes` attribute, so it raises `AttributeError` before
any traversal; the rest of the method is embedded anyway, faithfully to the
source text. -/
def layered_topological_sort (g : Graph) : Except PyError (List (List String)) :=
  match graph_nodes_attribute g with
  | .error e => .error e
  | .ok ns =>
      match lvisitAll g (ns.length + 1) (fun _ => 0, []) (ns.map (·.id)) with
      | .error e => .error e
      | .ok (_, layers) => .ok layers

/-- The expression `node_id.split("-")[0]`: the characters before the
first `-`, or the whole identifier when none occurs.  Only element 0 of
Python's split list is ever consumed, so the embedding computes just that
element (character-wise, so that it reduces in the kernel). -/
def splitDashHead (s : String) : String :=
  String.mk (s.toList.takeWhile (fun c => c != '-'))

/-- `Graph._get_vertex_class`.  The type-dispatch table
`lazy_load_vertex_dict.VERTEX_TYPE_MAP` and the `FILE_TOOLS` key set live
outside `src/` and are passed in as the read-only registry the spec
describes; the resolution chain is the one in the source. -/
def get_vertex_class (vmap : String → Option VertexClass) (fileTools : List String)
    (node_type node_lc_type node_id : String) : VertexClass :=
  let node_name := splitDashHead node_id
  match vmap node_name with
  | some c => c
  | none =>
      if node_type ∈ fileTools then .fileToolVertex
      else
        match vmap node_type with
        | some c => c
        | none =>
            match vmap node_lc_type with
            | some c => c
            | none => .vertex

/-- `Graph.get_vertex`: first vertex whose id matches, else `None`. -/
def get_vertex (vertices : List Vertex) (node_id : String) : Option Vertex :=
  vertices.find? (fun v => v.id == node_id)

/-- `Graph._build_edges`: resolve both endpoints of every raw edge record
(raising on the first unresolvable id, source checked before target) and
build the `ContractEdge` list in input order. -/
def build_edges (vertices : List Vertex) : List RawEdgeRec → Except PyError (List ContractEdge)
  | [] => .ok []
  | e :: rest =>
      match get_vertex vertices e.source with
      | none => .error (.sourceNotFound e.source)
      | some s =>
          match get_vertex vertices e.target with
          | none => .error (.targetNotFound e.target)
          | some t =>
              match build_edges vertices rest with
              | .error err => .error err
              | .ok es => .ok (⟨s, t⟩ :: es)

/-- One `node._build_params()` call.  The per-vertex preparation logic lives
in the `Vertex` classes outside `src/`; modelled from the spec: it is a
per-vertex local step, so the embedding records only that it ran. -/
def build_params_step (v : Vertex) : Vertex :=
  { v with builtCount := v.builtCount + 1 }

/-- `isinstance(node, LLMVertex)` for resolved behaviour classes. -/
def isLLMVertex (v : Vertex) : Bool :=
  v.cls == .llmVertex

/-- `isinstance(node, ToolkitVertex)` for resolved behaviour classes. -/
def isToolkitVertex (v : Vertex) : Bool :=
  v.cls == .toolkitVertex

/-- The first loop of `Graph._build_node_params`: run `_build_params` on
every vertex in collection order while tracking the last `LLMVertex`
encountered. -/
def build_node_params_loop : List Vertex → Option Vertex → List Vertex × Option Vertex
  | [], llm => ([], llm)
  | v :: rest, llm =>
      let v2 := build_params_step v
      let llm2 := if isLLMVertex v2 then some v2 else llm
      let res := build_node_params_loop rest llm2
      (v2 :: res.1, res.2)

/-- Dictionary update `node.params["llm"] = llm_node`; the stored reference
is embedded as the referenced vertex's unique identifier. -/
def set_param (v : Vertex) (k val : String) : Vertex :=
  { v with params := fun u => if u = k then some val else v.params u }

/-- `Graph._build_node_params`: after the full pass, if an `LLMVertex` was
encountered, inject a reference to it under the `"llm"` key of every
`ToolkitVertex`'s params. -/
def build_node_params (vs : List Vertex) : List Vertex :=
  let res := build_node_params_loop vs none
  match res.2 with
  | none => res.1
  | some l => res.1.map (fun v => if isToolkitVertex v then set_param v "llm" l.id else v)

/-- `Graph._validate_node`: `len(node.edges) > 0`. -/
def validate_node (g : Graph) (v : Vertex) : Bool :=
  decide (0 < (incidentEdges g.edges v.id).length)

/-- The `for node in self.vertices` loop of `Graph._validate_nodes`,
raising on the first vertex without incident edges. -/
def validate_nodes_go (g : Graph) : List Vertex → Except PyError Unit
  | [] => .ok ()
  | v :: rest =>
      if validate_node g v then validate_nodes_go g rest
      else .error (.disconnected v.vertex_type)

/-- `Graph._validate_nodes`: a single-vertex graph is exempt, otherwise
every vertex must have at least one incident edge. -/
def validate_nodes (g : Graph) : Except PyError Unit :=
  if g.vertices.length = 1 then .ok ()
  else validate_nodes_go g g.vertices

/-- Python `repr` of an identifier inside a list display (quote character
written via its code point; escaping of special characters inside
identifiers is not modelled). -/
def pyQuote (s : String) : String :=
  (Char.ofNat 39).toString ++ s ++ (Char.ofNat 39).toString

/-- Python `repr` of the `node_ids` list in `Graph.__repr__`. -/
def pyListRepr (l : List String) : String :=
  "[" ++ String.intercalate ", " (l.map pyQuote) ++ "]"

/-- `Graph.__repr__`: vertex identifier list plus one
`<source id> --> <target id>` line per edge in edge order. -/
def graph_repr (g : Graph) : String :=
  "Graph:\nNodes: " ++ pyListRepr (ids g) ++ "\nConnections:\n" ++
    String.intercalate "\n" (g.edges.map (fun e => e.source.id ++ " --> " ++ e.target.id))

/-- `Graph.__eq__` between two graphs: comparison of the canonical textual
representations (the `isinstance` guard is satisfied by typing). -/
def graph_eq (g1 g2 : Graph) : Bool :=
  graph_repr g1 == graph_repr g2

/-- `Graph._build_vertices`: resolve each raw node's behaviour class and
instantiate the vertex, marking it top-level when its id occurs in the
pre-normalization id list. -/
def build_vertices (vmap : String → Option VertexClass) (fileTools : List String)
    (top_level_nodes : List String) (nodes : List RawNode) : List Vertex :=
  nodes.map fun n =>
    { id := n.id,
      vertex_type := n.node_type,
      cls := get_vertex_class vmap fileTools n.node_type n.node_lc_type n.id,
      params := fun _ => none,
      builtCount := 0,
      is_top_level := decide (n.id ∈ top_level_nodes) }

/-- `Graph.__init__` followed by `_build_graph`.  `norm` is the external
`process_flow` normalizer (out of scope per the spec, passed in as the
collaborator function); `vmap`/`fileTools` are the external type registry.
`top_level_nodes` keeps the truthy (non-empty) pre-normalization ids, as
the walrus test `if node_id := node.get("id")` does.  Python mutates the
vertex objects shared between `vertices` and the built edges in place
during parameter propagation; the embedding rebuilds the vertex list
instead, which no claim below observes. -/
def construct (norm : List RawNode × List RawEdgeRec → List RawNode × List RawEdgeRec)
    (vmap : String → Option VertexClass) (fileTools : List String)
    (nodes : List RawNode) (edges : List RawEdgeRec) : Except PyError Graph :=
  let top_level_nodes := (nodes.map (·.id)).filter (fun i => !(i == ""))
  let nd := norm (nodes, edges)
  let vs := build_vertices vmap fileTools top_level_nodes nd.1
  match build_edges vs nd.2 with
  | .error e => .error e
  | .ok ces =>
      let g : Graph := { vertices := build_node_params vs, edges := ces }
      match validate_nodes g with
      | .error e => .error e
      | .ok _ => .ok g

/-- A value in the raw payload dictionary handed to `Graph.from_payload`:
the `nodes` list, the `edges` list, a nested dictionary (the value of a
wrapping `data` key), or anything else. -/
inductive PayloadField where
  | nodesF (ns : List RawNode)
  | edgesF (es : List RawEdgeRec)
  | dataF (entries : List (String × PayloadField))
  | otherF

/-- Dictionary lookup in the payload (first matching key). -/
def lookupField : List (String × PayloadField) → String → Option PayloadField
  | [], _ => none
  | (k, f) :: rest, key => if k = key then some f else lookupField rest key

/-- `list(payload.keys())`. -/
def payloadKeys (p : List (String × PayloadField)) : List String :=
  p.map Prod.fst

/-- The `if "data" in payload: payload = payload["data"]` step.  `none`
means the `data` value was not a dictionary, in which case the subsequent
subscripts raise `TypeError` rather than the `KeyError` branch. -/
def unwrapData (payload : List (String × PayloadField)) :
    Option (List (String × PayloadField)) :=
  match lookupField payload "data" with
  | some (.dataF d) => some d
  | some _ => none
  | none => some payload

/-- `Graph.from_payload`: unwrap the optional outer `data` key, read the
`nodes` and `edges` keys (a missing key raises `KeyError`, converted to the
`ValueError` naming `list(payload.keys())`), then construct the graph. -/
def from_payload
    (norm : List RawNode × List RawEdgeRec → List RawNode × List RawEdgeRec)
    (vmap : String → Option VertexClass) (fileTools : List String)
    (payload : List (String × PayloadField)) : Except PyError Graph :=
  match unwrapData payload with
  | none => .error .typeError
  | some p =>
      match lookupField p "nodes" with
      | none => .error (.invalidPayload (payloadKeys p))
      | some nf =>
          match lookupField p "edges" with
          | none => .error (.invalidPayload (payloadKeys p))
          | some ef =>
              match nf, ef with
              | .nodesF ns, .edgesF es => construct norm vmap fileTools ns es
              | _, _ => .error .typeError

/-- Invariants of the dfs visitation state used by the proofs below:
`Mono st st'` says a dfs step only turns unvisited vertices into visited
ones (net effect; the transient in-progress mark is cleared on return). -/
def Mono (st st' : String → Nat) : Prop :=
  ∀ u, st' u = st u ∨ (st u = 0 ∧ st' u = 2)

/-- Every state value is one of 0, 1, 2 — true of every dictionary the
Python code ever builds. -/
def StOk (st : String → Nat) : Prop :=
  ∀ u, st u ≤ 2

/-- No vertex is marked in-progress: holds between top-level dfs calls. -/
def NoOnes (st : String → Nat) : Prop :=
  ∀ u, st u ≠ 1

/-- `t` occurs strictly before `s` in the list `l`. -/
def Before (l : List String) (t s : String) : Prop :=
  ∃ l1 l2, l = l1 ++ s :: l2 ∧ t ∈ l1

/-- The dfs loop invariant: `sorted` holds exactly the done vertices,
without duplicates, all from the graph, and each appended vertex was
appended after all its out-neighbours. -/
def DfsInv (g : Graph) (st : String → Nat) (sorted : List String) : Prop :=
  (∀ u, st u = 2 ↔ u ∈ sorted) ∧ sorted.Nodup ∧
    (∀ u ∈ sorted, u ∈ ids g) ∧
    (∀ s ∈ sorted, ∀ t ∈ outTargets g s, Before sorted t s)

/-- Number of still-unvisited vertices: the termination measure showing the
recursion fuel `#vertices + 1` suffices. -/
def zeroCount (g : Graph) (st : String → Nat) : Nat :=
  ((ids g).filter (fun v => st v == 0)).length

/-! Concrete data used by the witness theorems. -/

/-- A vertex with the generic behaviour class and no parameters. -/
def sampleVertex (i : String) : Vertex :=
  { id := i, vertex_type := "T", cls := .vertex, params := fun _ => none,
    builtCount := 0, is_top_level := true }

/-- The spec's worked example: nodes A, B, C with edges A→B and B→C. -/
def sampleGraph : Graph :=
  { vertices := [sampleVertex "A", sampleVertex "B", sampleVertex "C"],
    edges := [⟨sampleVertex "A", sampleVertex "B"⟩, ⟨sampleVertex "B", sampleVertex "C"⟩] }

/-- The worked example with the cycle-closing edge C→A added. -/
def sampleCycle : Graph :=
  { vertices := sampleGraph.vertices,
    edges := sampleGraph.edges ++ [⟨sampleVertex "C", sampleVertex "A"⟩] }

/-- A registry mapping the name token `AgentNode` to the LLM behaviour. -/
def sampleVmap : String → Option VertexClass :=
  fun s => if s = "AgentNode" then some .llmVertex else none

/-- A single-vertex graph with no edges. -/
def oneVertexGraph : Graph :=
  { vertices := [sampleVertex "A"], edges := [] }

/-- Two vertices, no edges: the disconnected example of the spec. -/
def disconnectedGraph : Graph :=
  { vertices := [sampleVertex "A", sampleVertex "B"], edges := [] }

/-- A vertex with a chosen behaviour class. -/
def mkClassVertex (i : String) (c : VertexClass) : Vertex :=
  { id := i, vertex_type := "T", cls := c, params := fun _ => none,
    builtCount := 0, is_top_level := true }

/-- One LLM-role vertex. -/
def sampleLLM : Vertex :=
  mkClassVertex "L" .llmVertex

/-- First toolkit-role vertex. -/
def sampleToolkit1 : Vertex :=
  mkClassVertex "T1" .toolkitVertex

/-- Second toolkit-role vertex. -/
def sampleToolkit2 : Vertex :=
  mkClassVertex "T2" .toolkitVertex

/-- A vertex collection with one LLM-role and two toolkit-role vertices. -/
def sampleParamsVs : List Vertex :=
  [sampleToolkit1, sampleLLM, sampleToolkit2]

/-- The identity normalizer (a flow with no grouped sub-flows). -/
def idNorm : List RawNode × List RawEdgeRec → List RawNode × List RawEdgeRec :=
  fun x => x

/-- A raw node record for the construction examples. -/
def sampleRawNode : RawNode :=
  { id := "A", node_type := "T", node_lc_type := "L" }

/-- The graph `construct` builds from `[sampleRawNode]` and no edges. -/
def c7Graph : Graph :=
  { vertices := [{ id := "A", vertex_type := "T", cls := .vertex,
                   params := fun _ => none, builtCount := 1, is_top_level := true }],
    edges := [] }

/-- A ranking certifying acyclicity of the worked example. -/
def sampleRank : String → Nat :=
  fun s => if s = "A" then 0 else if s = "B" then 1 else 2

/-! Helper lemmas. -/

theorem mem_incidentEdges {es : List ContractEdge} {v : String} {e : ContractEdge} :
    e ∈ incidentEdges es v ↔ e ∈ es ∧ (e.source.id = v ∨ e.target.id = v) := by
  induction es with
  | nil => simp [incidentEdges]
  | cons a rest ih =>
      by_cases h1 : a.source.id = v <;> by_cases h2 : a.target.id = v <;>
        simp [incidentEdges, h1, h2, ih] <;> aesop

theorem mem_outTargets {g : Graph} {v t : String} :
    t ∈ outTargets g v ↔ ∃ e ∈ g.edges, e.source.id = v ∧ e.target.id = t := by
  simp only [outTargets, List.mem_map, List.mem_filter, mem_incidentEdges]
  constructor
  · rintro ⟨e, ⟨⟨he, _⟩, hsrc⟩, rfl⟩
    exact ⟨e, he, by simpa using hsrc, rfl⟩
  · rintro ⟨e, he, hsrc, rfl⟩
    exact ⟨e, ⟨⟨he, Or.inl hsrc⟩, by simpa using hsrc⟩, rfl⟩

theorem validate_node_false_iff (g : Graph) (v : Vertex) :
    validate_node g v = false ↔ incidentEdges g.edges v.id = [] := by
  simp [validate_node, List.length_eq_zero]

theorem validate_nodes_go_ok_iff (g : Graph) (l : List Vertex) :
    validate_nodes_go g l = Except.ok () ↔ ∀ v ∈ l, validate_node g v = true := by
  induction l with
  | nil => simp [validate_nodes_go]
  | cons a rest ih =>
      by_cases h : validate_node g a <;> simp [validate_nodes_go, h, ih]

theorem validate_nodes_go_error_iff (g : Graph) (l : List Vertex) :
    (∃ err, validate_nodes_go g l = Except.error err) ↔
      ∃ v ∈ l, incidentEdges g.edges v.id = [] := by
  induction l with
  | nil => simp [validate_nodes_go]
  | cons a rest ih =>
      by_cases h : validate_node g a
      · simp only [validate_nodes_go, h, if_true, ih]
        have : ¬ incidentEdges g.edges a.id = [] := by
          rw [← validate_node_false_iff]
          simp [h]
        aesop
      · have ha : incidentEdges g.edges a.id = [] :=
          (validate_node_false_iff g a).1 (by simpa using h)
        simp [validate_nodes_go, h, ha]

theorem validate_nodes_go_first (g : Graph) (l : List Vertex) (v : Vertex)
    (h : l.find? (fun u => !(validate_node g u)) = some v) :
    validate_nodes_go g l = Except.error (PyError.disconnected v.vertex_type) := by
  induction l with
  | nil => simp at h
  | cons a rest ih =>
      by_cases ha : validate_node g a
      · rw [List.find?_cons_of_neg _ (by simp [ha])] at h
        simp [validate_nodes_go, ha, ih h]
      · rw [List.find?_cons_of_pos _ (by simp [ha])] at h
        cases h
        simp [validate_nodes_go, ha]

/-! Claim theorems. -/

/-- C2: the claim states that on every graph with a directed cycle both
`topological_sort` and `layered_topological_sort` raise the cycle error and
that on acyclic input neither does.  `topological_sort` behaves as claimed
on the worked example, but `layered_topological_sort` raises
`AttributeError` on every graph whatsoever (its first statement reads the
never-assigned `self.nodes` attribute), so it never raises the cycle error
on cyclic input. -/
theorem sorts_on_cycle_divergence :
    topological_sort sampleCycle = Except.error PyError.cycleError ∧
    (∀ g : Graph, layered_topological_sort g =
      Except.error (PyError.attributeError "nodes")) ∧
    topological_sort sampleGraph = Except.ok ["A", "B", "C"] :=
  ⟨rfl, fun _ => rfl, rfl⟩

/-- Witness for C2's universally quantified part at a concrete cyclic graph. -/
theorem sorts_on_cycle_divergence_witness :
    layered_topological_sort sampleCycle = Except.error (PyError.attributeError "nodes") :=
  sorts_on_cycle_divergence.2.1 sampleCycle

/-- C8: the claim describes the layer assignment of
`layered_topological_sort` on acyclic graphs, but the method reads the
nonexistent `self.nodes` attribute before any traversal, so on the acyclic
worked example (and every other graph) it raises `AttributeError` instead
of assigning any layer. -/
theorem layered_sort_attribute_error :
    layered_topological_sort sampleGraph =
      Except.error (PyError.attributeError "nodes") ∧
    graph_nodes_attribute sampleGraph =
      Except.error (PyError.attributeError "nodes") :=
  ⟨rfl, rfl⟩

/-- C3: `_get_vertex_class` is total by construction (it is a Lean
function) and resolves with the claimed first-match precedence: identifier
prefix before the separator, then the file-tool category, then the declared
type, then the declared base type, then the generic `Vertex` fallback. -/
theorem get_vertex_class_precedence (vmap : String → Option VertexClass)
    (fileTools : List String) (node_type node_lc_type node_id : String) :
    (∀ c, vmap (splitDashHead node_id) = some c →
      get_vertex_class vmap fileTools node_type node_lc_type node_id = c) ∧
    (vmap (splitDashHead node_id) = none → node_type ∈ fileTools →
      get_vertex_class vmap fileTools node_type node_lc_type node_id =
        VertexClass.fileToolVertex) ∧
    (vmap (splitDashHead node_id) = none → node_type ∉ fileTools →
      ∀ c, vmap node_type = some c →
        get_vertex_class vmap fileTools node_type node_lc_type node_id = c) ∧
    (vmap (splitDashHead node_id) = none → node_type ∉ fileTools →
      vmap node_type = none → ∀ c, vmap node_lc_type = some c →
        get_vertex_class vmap fileTools node_type node_lc_type node_id = c) ∧
    (vmap (splitDashHead node_id) = none → node_type ∉ fileTools →
      vmap node_type = none → vmap node_lc_type = none →
        get_vertex_class vmap fileTools node_type node_lc_type node_id =
          VertexClass.vertex) := by
  refine ⟨?_, ?_, ?_, ?_, ?_⟩
  · intro c h
    simp only [get_vertex_class]
    rw [h]
  · intro h hft
    simp only [get_vertex_class]
    rw [h]
    simp [hft]
  · intro h hft c h2
    simp only [get_vertex_class]
    rw [h]
    simp [hft, h2]
  · intro h hft h2 c h3
    simp only [get_vertex_class]
    rw [h]
    simp [hft, h2, h3]
  · intro h hft h2 h3
    simp only [get_vertex_class]
    rw [h]
    simp [hft, h2, h3]

/-- Witness for C3 exercising precedence steps 1, 2 and 5 concretely. -/
theorem get_vertex_class_precedence_witness :
    get_vertex_class sampleVmap ["CSVLoader"] "x" "y" "AgentNode-17" =
      VertexClass.llmVertex ∧
    get_vertex_class sampleVmap ["CSVLoader"] "CSVLoader" "y" "Zip-1" =
      VertexClass.fileToolVertex ∧
    get_vertex_class sampleVmap ["CSVLoader"] "nope" "alsono" "Zip-1" =
      VertexClass.vertex :=
  ⟨(get_vertex_class_precedence sampleVmap ["CSVLoader"] "x" "y" "AgentNode-17").1
      _ (by decide),
   (get_vertex_class_precedence sampleVmap ["CSVLoader"] "CSVLoader" "y" "Zip-1").2.1
      (by decide) (by decide),
   (get_vertex_class_precedence sampleVmap ["CSVLoader"] "nope" "alsono" "Zip-1").2.2.2.2
      (by decide) (by decide) (by decide) (by decide)⟩

/-- C4: connectivity validation accepts every single-vertex graph; with two
or more vertices it raises exactly when some vertex has no incident edge,
it raises on the first such vertex in collection order, and the error names
that vertex's type. -/
theorem validate_nodes_spec (g : Graph) :
    (g.vertices.length = 1 → validate_nodes g = Except.ok ()) ∧
    (2 ≤ g.vertices.length →
      ((∃ err, validate_nodes g = Except.error err) ↔
        ∃ v ∈ g.vertices, incidentEdges g.edges v.id = []) ∧
      (∀ v, g.vertices.find? (fun u => !(validate_node g u)) = some v →
        validate_nodes g = Except.error (PyError.disconnected v.vertex_type))) := by
  constructor
  · intro h
    simp [validate_nodes, h]
  · intro h2
    have hne : ¬ g.vertices.length = 1 := by omega
    constructor
    · rw [validate_nodes, if_neg hne]
      exact validate_nodes_go_error_iff g g.vertices
    · intro v hv
      rw [validate_nodes, if_neg hne]
      exact validate_nodes_go_first g g.vertices v hv

/-- Witness for C4: the one-vertex graph passes, the two-vertex edgeless
graph fails on its first vertex, named by type. -/
theorem validate_nodes_spec_witness :
    validate_nodes oneVertexGraph = Except.ok () ∧
    validate_nodes disconnectedGraph =
      Except.error (PyError.disconnected "T") :=
  ⟨(validate_nodes_spec oneVertexGraph).1 rfl,
   (validate_nodes_spec disconnectedGraph).2 (by decide) |>.2 (sampleVertex "A") rfl⟩

/-- C10: the empty graph is accepted: validation's disconnected error needs
at least two vertices, so a graph with no vertices validates, and full
construction from empty input completes with the empty graph. -/
theorem empty_graph_accepted :
    (∀ g : Graph, g.vertices = [] → validate_nodes g = Except.ok ()) ∧
    (∀ (g : Graph) err, validate_nodes g = Except.error err →
      2 ≤ g.vertices.length) ∧
    (∀ norm vmap fileTools nodes edges, norm (nodes, edges) = ([], []) →
      construct norm vmap fileTools nodes edges =
        Except.ok { vertices := [], edges := [] }) := by
  refine ⟨?_, ?_, ?_⟩
  · intro g h
    simp [validate_nodes, h, validate_nodes_go]
  · intro g err herr
    by_cases h1 : g.vertices.length = 1
    · simp [validate_nodes, h1] at herr
    · rw [validate_nodes, if_neg h1] at herr
      have hne : g.vertices ≠ [] := by
        intro h
        rw [h] at herr
        simp [validate_nodes_go] at herr
      have h0 : g.vertices.length ≠ 0 := by
        simpa [List.length_eq_zero] using hne
      omega
  · intro norm vmap fileTools nodes edges h
    simp [construct, h, build_vertices, build_edges, build_node_params,
      build_node_params_loop, validate_nodes, validate_nodes_go]

/-- Witness for C10 at the empty input with the identity normalizer. -/
theorem empty_graph_accepted_witness :
    validate_nodes { vertices := [], edges := [] } = Except.ok () ∧
    construct idNorm (fun _ => none) [] [] [] =
      Except.ok { vertices := [], edges := [] } :=
  ⟨empty_graph_accepted.1 { vertices := [], edges := [] } rfl,
   empty_graph_accepted.2.2 idNorm (fun _ => none) [] [] [] rfl⟩

/-! Parameter-propagation lemmas (C5). -/

theorem build_node_params_loop_fst (vs : List Vertex) (acc : Option Vertex) :
    (build_node_params_loop vs acc).1 = vs.map build_params_step := by
  induction vs generalizing acc with
  | nil => simp [build_node_params_loop]
  | cons v rest ih => simp [build_node_params_loop, ih]

theorem build_node_params_loop_snd (vs : List Vertex) (acc : Option Vertex) :
    (build_node_params_loop vs acc).2 =
      vs.foldl (fun a v => if isLLMVertex v then some (build_params_step v) else a)
        acc := by
  induction vs generalizing acc with
  | nil => simp [build_node_params_loop]
  | cons v rest ih =>
      have hcls : isLLMVertex (build_params_step v) = isLLMVertex v := rfl
      simp only [build_node_params_loop, List.foldl_cons, hcls]
      rw [ih]

theorem foldl_lastLLM (vs : List Vertex) (acc : Option Vertex) :
    vs.foldl (fun a v => if isLLMVertex v then some (build_params_step v) else a)
        acc =
      match (vs.filter (fun v => isLLMVertex v)).getLast? with
      | some l => some (build_params_step l)
      | none => acc := by
  induction vs using List.reverseRecOn with
  | nil => simp
  | append_singleton ys y ih =>
      rw [List.foldl_append, List.filter_append]
      by_cases h : isLLMVertex y
      · simp [h, List.getLast?_concat]
      · simp [h, ih]

/-- C5: after parameter propagation, when at least one LLM-role vertex is
present, every toolkit-role vertex's params hold, under the key `llm`, a
reference to the last LLM-role vertex in collection order, and every
vertex's `_build_params` step ran exactly once. -/
theorem build_node_params_spec (vs : List Vertex) (l : Vertex)
    (h : (vs.filter (fun v => isLLMVertex v)).getLast? = some l) :
    (∀ v ∈ build_node_params vs, isToolkitVertex v = true →
      v.params "llm" = some l.id) ∧
    (build_node_params vs).map (fun v => v.builtCount) =
      vs.map (fun v => v.builtCount + 1) := by
  have hsnd : (build_node_params_loop vs none).2 = some (build_params_step l) := by
    rw [build_node_params_loop_snd, foldl_lastLLM, h]
  have hbp : build_node_params vs =
      (vs.map build_params_step).map
        (fun v => if isToolkitVertex v
          then set_param v "llm" (build_params_step l).id else v) := by
    simp only [build_node_params]
    rw [hsnd, build_node_params_loop_fst]
  constructor
  · intro v hv htk
    rw [hbp] at hv
    rcases List.mem_map.1 hv with ⟨w, _, rfl⟩
    by_cases hw : isToolkitVertex w
    · simp [hw, set_param, build_params_step]
    · rw [if_neg hw] at htk ⊢
      exact absurd htk hw
  · rw [hbp, List.map_map, List.map_map]
    congr 1
    funext v
    simp only [Function.comp_apply]
    by_cases hw : isToolkitVertex (build_params_step v) = true
    · rw [if_pos hw]
      rfl
    · rw [if_neg hw]
      rfl

/-- Witness for C5: one LLM vertex and two toolkit vertices; the toolkit
vertex's params hold the LLM vertex's id and every build counter is 1. -/
theorem build_node_params_spec_witness :
    (set_param (build_params_step sampleToolkit1) "llm" "L").params "llm" =
      some "L" ∧
    (build_node_params sampleParamsVs).map (fun v => v.builtCount) = [1, 1, 1] := by
  have h := build_node_params_spec sampleParamsVs sampleLLM rfl
  exact ⟨h.1 _ (List.mem_cons_self _ _) rfl, h.2.trans rfl⟩

/-! Edge-construction lemmas (C6). -/

theorem get_vertex_eq_none_iff (vs : List Vertex) (i : String) :
    get_vertex vs i = none ↔ ∀ v ∈ vs, v.id ≠ i := by
  simp [get_vertex, List.find?_eq_none]

/-- C6: on success every built edge's endpoints are members of the vertex
collection; whenever some raw edge's source or target id matches no
vertex, construction aborts with an error naming a missing identifier. -/
theorem build_edges_spec (vs : List Vertex) (es : List RawEdgeRec) :
    (∀ ces, build_edges vs es = Except.ok ces →
      ∀ ce ∈ ces, ce.source ∈ vs ∧ ce.target ∈ vs) ∧
    ((∃ e ∈ es, (∀ v ∈ vs, v.id ≠ e.source) ∨ (∀ v ∈ vs, v.id ≠ e.target)) →
      (∃ i, build_edges vs es = Except.error (PyError.sourceNotFound i) ∧
          ∀ v ∈ vs, v.id ≠ i) ∨
      (∃ i, build_edges vs es = Except.error (PyError.targetNotFound i) ∧
          ∀ v ∈ vs, v.id ≠ i)) := by
  induction es with
  | nil =>
      constructor
      · intro ces h ce hce
        rw [show build_edges vs [] = Except.ok [] from rfl] at h
        cases h
        cases hce
      · rintro ⟨e, he, _⟩
        cases he
  | cons e rest ih =>
      rcases h1 : get_vertex vs e.source with _ | s
      · constructor
        · intro ces h
          simp [build_edges, h1] at h
        · intro _
          exact Or.inl ⟨e.source, by simp [build_edges, h1],
            (get_vertex_eq_none_iff vs e.source).1 h1⟩
      · rcases h2 : get_vertex vs e.target with _ | t
        · constructor
          · intro ces h
            simp [build_edges, h1, h2] at h
          · intro _
            exact Or.inr ⟨e.target, by simp [build_edges, h1, h2],
              (get_vertex_eq_none_iff vs e.target).1 h2⟩
        · constructor
          · intro ces h
            rcases hrest : build_edges vs rest with err | es2
            · simp [build_edges, h1, h2, hrest] at h
            · rw [show build_edges vs (e :: rest) =
                  Except.ok (⟨s, t⟩ :: es2) by simp [build_edges, h1, h2, hrest]] at h
              cases h
              intro ce hce
              rcases List.mem_cons.1 hce with rfl | hce2
              · exact ⟨List.mem_of_find?_eq_some h1, List.mem_of_find?_eq_some h2⟩
              · exact ih.1 es2 hrest ce hce2
          · rintro ⟨e2, he2m, hbad⟩
            rcases List.mem_cons.1 he2m with rfl | he2
            · exfalso
              rcases hbad with hbad | hbad
              · rw [(get_vertex_eq_none_iff vs e2.source).2 hbad] at h1
                cases h1
              · rw [(get_vertex_eq_none_iff vs e2.target).2 hbad] at h2
                cases h2
            · rcases ih.2 ⟨e2, he2, hbad⟩ with ⟨i, herr, hni⟩ | ⟨i, herr, hni⟩
              · exact Or.inl ⟨i, by simp [build_edges, h1, h2, herr], hni⟩
              · exact Or.inr ⟨i, by simp [build_edges, h1, h2, herr], hni⟩

/-- Witness for C6: a resolvable edge yields member endpoints; an edge to a
missing target id aborts naming that id. -/
theorem build_edges_spec_witness :
    (⟨sampleVertex "A", sampleVertex "B"⟩ : ContractEdge).source ∈
      [sampleVertex "A", sampleVertex "B"] ∧
    build_edges [sampleVertex "A"] [{ source := "A", target := "B" }] =
      Except.error (PyError.targetNotFound "B") := by
  constructor
  · exact ((build_edges_spec [sampleVertex "A", sampleVertex "B"]
      [{ source := "A", target := "B" }]).1
        [⟨sampleVertex "A", sampleVertex "B"⟩] rfl
        ⟨sampleVertex "A", sampleVertex "B"⟩ (List.mem_cons_self _ _)).1
  · rfl

/-- C7: graph equality is exactly equality of the canonical textual
representations, and two graphs constructed from identical node/edge input
compare equal. -/
theorem graph_eq_iff_repr (g1 g2 : Graph) :
    (graph_eq g1 g2 = true ↔ graph_repr g1 = graph_repr g2) ∧
    (∀ norm vmap fileTools nodes edges ga gb,
      construct norm vmap fileTools nodes edges = Except.ok ga →
      construct norm vmap fileTools nodes edges = Except.ok gb →
      graph_eq ga gb = true) := by
  constructor
  · simp [graph_eq]
  · intro norm vmap fileTools nodes edges ga gb ha hb
    have hab : ga = gb := Except.ok.inj (ha.symm.trans hb)
    subst hab
    simp [graph_eq]

/-- Witness for C7: the one-node construction result compares equal to
itself via the round-trip part of the theorem. -/
theorem graph_eq_iff_repr_witness :
    graph_eq c7Graph c7Graph = true ∧
    construct idNorm (fun _ => none) [] [sampleRawNode] [] = Except.ok c7Graph :=
  ⟨(graph_eq_iff_repr c7Graph c7Graph).2 idNorm (fun _ => none) []
      [sampleRawNode] [] c7Graph c7Graph rfl rfl,
   rfl⟩

/-- C9: `from_payload` first unwraps an optional outer `data` key; if the
unwrapped payload lacks `nodes` or `edges`, it fails with the error naming
the keys actually present — for every normalizer and registry, i.e. before
any vertex is built. -/
theorem from_payload_missing_keys
    (norm : List RawNode × List RawEdgeRec → List RawNode × List RawEdgeRec)
    (vmap : String → Option VertexClass) (fileTools : List String)
    (payload p : List (String × PayloadField))
    (hu : unwrapData payload = some p)
    (hmiss : lookupField p "nodes" = none ∨ lookupField p "edges" = none) :
    from_payload norm vmap fileTools payload =
      Except.error (PyError.invalidPayload (payloadKeys p)) := by
  unfold from_payload
  rcases hmiss with h | h
  · simp only [hu, h]
  · rcases hn : lookupField p "nodes" with _ | nf
    · simp only [hu, hn]
    · simp only [hu, hn, h]

/-- Witness for C9: a flat payload without `nodes`, and a `data`-wrapped
payload without `edges`; both fail naming the keys present. -/
theorem from_payload_missing_keys_witness :
    from_payload idNorm (fun _ => none) [] [("foo", PayloadField.otherF)] =
      Except.error (PyError.invalidPayload ["foo"]) ∧
    from_payload idNorm (fun _ => none) []
        [("data", PayloadField.dataF
          [("nodes", PayloadField.nodesF []), ("junk", PayloadField.otherF)])] =
      Except.error (PyError.invalidPayload ["nodes", "junk"]) :=
  ⟨from_payload_missing_keys idNorm (fun _ => none) []
      [("foo", PayloadField.otherF)] [("foo", PayloadField.otherF)]
      rfl (Or.inl rfl),
   from_payload_missing_keys idNorm (fun _ => none) []
      [("data", PayloadField.dataF
        [("nodes", PayloadField.nodesF []), ("junk", PayloadField.otherF)])]
      [("nodes", PayloadField.nodesF []), ("junk", PayloadField.otherF)]
      rfl (Or.inr rfl)⟩

/-! State-transition lemmas for the dfs proofs (C1). -/

theorem mono_refl (st : String → Nat) : Mono st st :=
  fun _ => Or.inl rfl

theorem mono_trans {st1 st2 st3 : String → Nat} (h12 : Mono st1 st2)
    (h23 : Mono st2 st3) : Mono st1 st3 := by
  intro u
  rcases h12 u with h | ⟨h, h'⟩ <;> rcases h23 u with g | ⟨g, g'⟩ <;> omega

theorem filter_length_le_of_imp (l : List String) (p q : String → Bool)
    (h : ∀ u, p u = true → q u = true) :
    (l.filter p).length ≤ (l.filter q).length := by
  induction l with
  | nil => simp
  | cons a t ih =>
      rw [List.filter_cons, List.filter_cons]
      by_cases hp : p a = true
      · rw [if_pos hp, if_pos (h a hp)]
        simpa using ih
      · rw [if_neg hp]
        by_cases hq : q a = true
        · rw [if_pos hq]
          exact ih.trans (Nat.le_succ _)
        · rw [if_neg hq]
          exact ih

theorem set1_zero_imp (st : String → Nat) (v : String) :
    ∀ u, (setSt st v 1 u == 0) = true → (st u == 0) = true := by
  intro u hu
  by_cases h : u = v
  · simp [setSt, h] at hu
  · simpa [setSt, h] using hu

theorem mono_zeroCount {g : Graph} {st st' : String → Nat} (h : Mono st st') :
    zeroCount g st' ≤ zeroCount g st := by
  apply filter_length_le_of_imp
  intro u hu
  simp only [beq_iff_eq] at hu ⊢
  rcases h u with h' | ⟨h0, h2⟩ <;> omega

theorem filter_set1_lt (l : List String) (st : String → Nat) (v : String)
    (hv : v ∈ l) (h0 : st v = 0) :
    (l.filter (fun u => setSt st v 1 u == 0)).length <
      (l.filter (fun u => st u == 0)).length := by
  induction l with
  | nil => cases hv
  | cons a t ih =>
      rw [List.filter_cons, List.filter_cons]
      by_cases ha : a = v
      · subst ha
        rw [if_neg (by simp [setSt]), if_pos (by simp [h0])]
        have hle := filter_length_le_of_imp t
          (fun u => setSt st a 1 u == 0) (fun u => st u == 0) (set1_zero_imp st a)
        simpa using Nat.lt_succ_of_le hle
      · have hmem : v ∈ t := by
          rcases List.mem_cons.1 hv with h | h
          · exact absurd h.symm ha
          · exact h
        have heq : setSt st v 1 a = st a := by
          simp [setSt, ha]
        rw [heq]
        by_cases hsa : (st a == 0) = true
        · rw [if_pos hsa, if_pos hsa]
          simpa using ih hmem
        · rw [if_neg hsa, if_neg hsa]
          exact ih hmem

theorem zeroCount_set1_lt {g : Graph} {st : String → Nat} {v : String}
    (hv : v ∈ ids g) (h0 : st v = 0) :
    zeroCount g (setSt st v 1) < zeroCount g st :=
  filter_set1_lt (ids g) st v hv h0

theorem zeroCount_le_card (g : Graph) (st : String → Nat) :
    zeroCount g st ≤ g.vertices.length := by
  have h := List.length_filter_le (fun v => st v == 0) (ids g)
  simpa [ids, zeroCount] using h

theorem before_append {l d : List String} {t s : String} (h : Before l t s) :
    Before (l ++ d) t s := by
  obtain ⟨l1, l2, rfl, ht⟩ := h
  exact ⟨l1, l2 ++ d, by simp, ht⟩

theorem before_concat {l : List String} {t s : String} (h : t ∈ l) :
    Before (l ++ [s]) t s :=
  ⟨l, [], rfl, h⟩

theorem before_reverse_indexOf {l : List String} {t s : String}
    (hnd : l.Nodup) (h : Before l t s) :
    l.reverse.indexOf s < l.reverse.indexOf t := by
  obtain ⟨l1, l2, rfl, ht⟩ := h
  have hnd' := List.nodup_append.1 hnd
  have hs2 : s ∉ l2 := (List.nodup_cons.1 hnd'.2.1).1
  have hdisj := hnd'.2.2
  have hts : t ≠ s := fun e => hdisj ht (e ▸ List.mem_cons_self s l2)
  have htl2 : t ∉ l2 := fun m => hdisj ht (List.mem_cons_of_mem _ m)
  have hrev : (l1 ++ s :: l2).reverse = l2.reverse ++ s :: l1.reverse := by
    simp
  rw [hrev,
    List.indexOf_append_of_not_mem (by simpa using hs2),
    List.indexOf_append_of_not_mem (by simpa using htl2),
    List.indexOf_cons_self,
    List.indexOf_cons_ne _ (Ne.symm hts)]
  omega

theorem inv_set1 {g : Graph} {st : String → Nat} {sorted : List String} {v : String}
    (hinv : DfsInv g st sorted) (h0 : st v = 0) :
    DfsInv g (setSt st v 1) sorted := by
  obtain ⟨hiff, hnd, hsub, hbef⟩ := hinv
  refine ⟨?_, hnd, hsub, hbef⟩
  intro u
  by_cases hu : u = v
  · subst hu
    have hval : setSt st u 1 u = 1 := by simp [setSt]
    rw [hval]
    constructor
    · intro h
      exact absurd h (by omega)
    · intro hm
      have h2 := (hiff u).2 hm
      omega
  · simp only [setSt, if_neg hu]
    exact hiff u

theorem outTargets_mem_ids {g : Graph} (hwf : Wellformed g) {v t : String}
    (ht : t ∈ outTargets g v) : t ∈ ids g := by
  obtain ⟨e, he, _, htgt⟩ := mem_outTargets.1 ht
  exact htgt ▸ (hwf e he).2

theorem foldSteps_dfs_ok {g : Graph} (f : Nat)
    (hdfs : ∀ (st : String → Nat) (sorted : List String) (v : String)
      (st' : String → Nat) (sorted' : List String),
      v ∈ ids g → StOk st → DfsInv g st sorted →
      dfs g f (st, sorted) v = Except.ok (st', sorted') →
      Mono st st' ∧ (∃ d, sorted' = sorted ++ d) ∧ st' v = 2 ∧ StOk st' ∧
        DfsInv g st' sorted') :
    ∀ (ts : List String) (st : String → Nat) (sorted : List String)
      (st' : String → Nat) (sorted' : List String),
      (∀ t ∈ ts, t ∈ ids g) → StOk st → DfsInv g st sorted →
      foldSteps (dfs g f) (st, sorted) ts = Except.ok (st', sorted') →
      Mono st st' ∧ (∃ d, sorted' = sorted ++ d) ∧ (∀ t ∈ ts, st' t = 2) ∧
        StOk st' ∧ DfsInv g st' sorted' := by
  intro ts
  induction ts with
  | nil =>
      intro st sorted st' sorted' _ hsk hinv hok
      simp only [foldSteps] at hok
      cases hok
      exact ⟨mono_refl st, ⟨[], by simp⟩, by simp, hsk, hinv⟩
  | cons t ts ih =>
      intro st sorted st' sorted' hmem hsk hinv hok
      simp only [foldSteps] at hok
      rcases hd : dfs g f (st, sorted) t with e | p
      · rw [hd] at hok
        cases hok
      · obtain ⟨st2, s2⟩ := p
        rw [hd] at hok
        obtain ⟨m1, ⟨d1, hd1⟩, ht2, hsk2, hinv2⟩ :=
          hdfs st sorted t st2 s2 (hmem t (List.mem_cons_self t ts)) hsk hinv hd
        obtain ⟨m2, ⟨d2, hd2⟩, hts2, hsk3, hinv3⟩ :=
          ih st2 s2 st' sorted' (fun u hu => hmem u (List.mem_cons_of_mem t hu))
            hsk2 hinv2 hok
        refine ⟨mono_trans m1 m2, ⟨d1 ++ d2, by rw [hd2, hd1, List.append_assoc]⟩,
          ?_, hsk3, hinv3⟩
        intro u hu
        rcases List.mem_cons.1 hu with rfl | hu2
        · rcases m2 u with h | ⟨h, h'⟩ <;> omega
        · exact hts2 u hu2

theorem dfs_ok {g : Graph} (hwf : Wellformed g) :
    ∀ (f : Nat) (st : String → Nat) (sorted : List String) (v : String)
      (st' : String → Nat) (sorted' : List String),
      v ∈ ids g → StOk st → DfsInv g st sorted →
      dfs g f (st, sorted) v = Except.ok (st', sorted') →
      Mono st st' ∧ (∃ d, sorted' = sorted ++ d) ∧ st' v = 2 ∧ StOk st' ∧
        DfsInv g st' sorted' := by
  intro f
  induction f with
  | zero =>
      intro st sorted v st' sorted' hv hsk hinv hok
      simp only [dfs] at hok
      by_cases h1 : st v = 1
      · rw [if_pos h1] at hok
        cases hok
      · rw [if_neg h1] at hok
        by_cases h0 : st v = 0
        · rw [if_pos h0] at hok
          cases hok
        · rw [if_neg h0] at hok
          cases hok
          have h2 := hsk v
          exact ⟨mono_refl st, ⟨[], by simp⟩, by omega, hsk, hinv⟩
  | succ f ih =>
      intro st sorted v st' sorted' hv hsk hinv hok
      simp only [dfs] at hok
      by_cases h1 : st v = 1
      · rw [if_pos h1] at hok
        cases hok
      · rw [if_neg h1] at hok
        by_cases h0 : st v = 0
        · rw [if_pos h0] at hok
          rcases hf : foldSteps (dfs g f) (setSt st v 1, sorted) (outTargets g v)
            with e | p
          · rw [hf] at hok
            cases hok
          · obtain ⟨st2, s2⟩ := p
            rw [hf] at hok
            cases hok
            have hSk1 : StOk (setSt st v 1) := by
              intro u
              by_cases hu : u = v <;> simp [setSt, hu]
              exact hsk u
            have hInv1 : DfsInv g (setSt st v 1) sorted := inv_set1 hinv h0
            obtain ⟨m1, ⟨d1, hd1⟩, hdone, hsk2, hinv2⟩ :=
              foldSteps_dfs_ok f ih (outTargets g v) (setSt st v 1) sorted
                st2 s2 (fun t ht => outTargets_mem_ids hwf ht) hSk1 hInv1 hf
            have hst2v : st2 v = 1 := by
              rcases m1 v with h | ⟨h, h'⟩
              · simp [setSt] at h
                omega
              · simp [setSt] at h
            have hvnots2 : v ∉ s2 := by
              intro hm
              have := (hinv2.1 v).2 hm
              omega
            refine ⟨?_, ⟨d1 ++ [v], by rw [hd1, List.append_assoc]⟩,
              by simp [setSt], ?_, ?_⟩
            · intro u
              by_cases hu : u = v
              · subst hu
                exact Or.inr ⟨h0, by simp [setSt]⟩
              · rcases m1 u with h | ⟨h, h'⟩ <;> simp [setSt, hu] at h ⊢ <;> omega
            · intro u
              by_cases hu : u = v <;> simp [setSt, hu]
              exact hsk2 u
            · obtain ⟨hiff2, hnd2, hsub2, hbef2⟩ := hinv2
              refine ⟨?_, ?_, ?_, ?_⟩
              · intro u
                by_cases hu : u = v
                · subst hu
                  simp [setSt]
                · simp only [setSt, if_neg hu, List.mem_append,
                    List.mem_singleton]
                  rw [hiff2 u]
                  constructor
                  · exact Or.inl
                  · rintro (h | rfl)
                    · exact h
                    · exact absurd rfl hu
              · rw [List.nodup_append]
                exact ⟨hnd2, List.nodup_singleton v,
                  fun a ha ha2 => hvnots2 ((List.mem_singleton.1 ha2) ▸ ha)⟩
              · intro u hu
                rcases List.mem_append.1 hu with h | h
                · exact hsub2 u h
                · exact (List.mem_singleton.1 h) ▸ hv
              · intro s hs t ht
                rcases List.mem_append.1 hs with h | h
                · exact before_append (hbef2 s h t ht)
                · have hst : s = v := List.mem_singleton.1 h
                  subst hst
                  have ht2 : st2 t = 2 := hdone t ht
                  exact before_concat ((hiff2 t).1 ht2)
        · rw [if_neg h0] at hok
          cases hok
          have h2 := hsk v
          exact ⟨mono_refl st, ⟨[], by simp⟩, by omega, hsk, hinv⟩

theorem visitAll_ok {g : Graph} (hwf : Wellformed g) (fuel : Nat) :
    ∀ (vs : List String) (st : String → Nat) (sorted : List String)
      (st' : String → Nat) (sorted' : List String),
      (∀ v ∈ vs, v ∈ ids g) → StOk st → NoOnes st → DfsInv g st sorted →
      visitAll g fuel (st, sorted) vs = Except.ok (st', sorted') →
      Mono st st' ∧ (∀ v ∈ vs, st' v = 2) ∧ StOk st' ∧ NoOnes st' ∧
        DfsInv g st' sorted' := by
  intro vs
  induction vs with
  | nil =>
      intro st sorted st' sorted' _ hsk hno hinv hok
      simp only [visitAll] at hok
      cases hok
      exact ⟨mono_refl st, by simp, hsk, hno, hinv⟩
  | cons v vs ih =>
      intro st sorted st' sorted' hmem hsk hno hinv hok
      simp only [visitAll] at hok
      by_cases h0 : st v = 0
      · rw [if_pos h0] at hok
        rcases hd : dfs g fuel (st, sorted) v with e | p
        · rw [hd] at hok
          cases hok
        · obtain ⟨st2, s2⟩ := p
          rw [hd] at hok
          obtain ⟨m1, _, hv2, hsk2, hinv2⟩ :=
            dfs_ok hwf fuel st sorted v st2 s2 (hmem v (List.mem_cons_self v vs))
              hsk hinv hd
          have hno2 : NoOnes st2 := by
            intro u
            rcases m1 u with h | ⟨h, h2⟩
            · rw [h]; exact hno u
            · omega
          obtain ⟨m2, hcov, hsk3, hno3, hinv3⟩ :=
            ih st2 s2 st' sorted' (fun u hu => hmem u (List.mem_cons_of_mem v hu))
              hsk2 hno2 hinv2 hok
          refine ⟨mono_trans m1 m2, ?_, hsk3, hno3, hinv3⟩
          intro u hu
          rcases List.mem_cons.1 hu with rfl | hu2
          · rcases m2 u with h | ⟨h, h2⟩ <;> omega
          · exact hcov u hu2
      · rw [if_neg h0] at hok
        obtain ⟨m2, hcov, hsk3, hno3, hinv3⟩ :=
          ih st sorted st' sorted' (fun u hu => hmem u (List.mem_cons_of_mem v hu))
            hsk hno hinv hok
        refine ⟨m2, ?_, hsk3, hno3, hinv3⟩
        intro u hu
        rcases List.mem_cons.1 hu with rfl | hu2
        · have h2 : st u = 2 := by
            have ha := hsk u
            have hb := hno u
            omega
          rcases m2 u with h | ⟨h, h'⟩ <;> omega
        · exact hcov u hu2

theorem foldSteps_dfs_succeeds {g : Graph} (hwf : Wellformed g) (f : Nat)
    (hdfs : ∀ (st : String → Nat) (sorted : List String) (v : String),
      v ∈ ids g → StOk st → DfsInv g st sorted →
      (∀ u, st u = 1 → ReachesPlus g u v) → zeroCount g st < f →
      ∃ out, dfs g f (st, sorted) v = Except.ok out) :
    ∀ (ts : List String) (st : String → Nat) (sorted : List String),
      (∀ t ∈ ts, t ∈ ids g) → StOk st → DfsInv g st sorted →
      (∀ t ∈ ts, ∀ u, st u = 1 → ReachesPlus g u t) → zeroCount g st < f →
      ∃ out, foldSteps (dfs g f) (st, sorted) ts = Except.ok out := by
  intro ts
  induction ts with
  | nil =>
      intro st sorted _ _ _ _ _
      exact ⟨(st, sorted), rfl⟩
  | cons t ts ih =>
      intro st sorted hmem hsk hinv hone hzc
      obtain ⟨out1, hd⟩ := hdfs st sorted t (hmem t (List.mem_cons_self t ts))
        hsk hinv (hone t (List.mem_cons_self t ts)) hzc
      obtain ⟨st2, s2⟩ := out1
      obtain ⟨m1, _, _, hsk2, hinv2⟩ :=
        dfs_ok hwf f st sorted t st2 s2 (hmem t (List.mem_cons_self t ts))
          hsk hinv hd
      have hone2 : ∀ u ∈ ts, ∀ w, st2 w = 1 → ReachesPlus g w u := by
        intro u hu w hw
        have hw1 : st w = 1 := by
          rcases m1 w with h | ⟨h, h'⟩ <;> omega
        exact hone u (List.mem_cons_of_mem t hu) w hw1
      have hzc2 : zeroCount g st2 < f := lt_of_le_of_lt (mono_zeroCount m1) hzc
      obtain ⟨out, hrest⟩ := ih st2 s2
        (fun u hu => hmem u (List.mem_cons_of_mem t hu)) hsk2 hinv2 hone2 hzc2
      refine ⟨out, ?_⟩
      simp only [foldSteps]
      rw [hd]
      exact hrest

theorem dfs_succeeds {g : Graph} (hwf : Wellformed g) (hac : Acyclic g) :
    ∀ (f : Nat) (st : String → Nat) (sorted : List String) (v : String),
      v ∈ ids g → StOk st → DfsInv g st sorted →
      (∀ u, st u = 1 → ReachesPlus g u v) → zeroCount g st < f →
      ∃ out, dfs g f (st, sorted) v = Except.ok out := by
  intro f
  induction f with
  | zero =>
      intro st sorted v _ _ _ _ hzc
      exact absurd hzc (Nat.not_lt_zero _)
  | succ f ih =>
      intro st sorted v hv hsk hinv hone hzc
      by_cases h1 : st v = 1
      · exact absurd (hone v h1) (hac v)
      · by_cases h0 : st v = 0
        · have hSk1 : StOk (setSt st v 1) := by
            intro u
            by_cases hu : u = v <;> simp [setSt, hu]
            exact hsk u
          have hInv1 : DfsInv g (setSt st v 1) sorted := inv_set1 hinv h0
          have hone1 : ∀ t ∈ outTargets g v, ∀ u,
              setSt st v 1 u = 1 → ReachesPlus g u t := by
            intro t ht u hu
            have hedge : HasEdge g v t := by
              obtain ⟨e, he, hs, htg⟩ := mem_outTargets.1 ht
              exact ⟨e, he, hs, htg⟩
            by_cases huv : u = v
            · subst huv
              exact Relation.TransGen.single hedge
            · have hu1 : st u = 1 := by simpa [setSt, huv] using hu
              exact Relation.TransGen.tail (hone u hu1) hedge
          have hzc1 : zeroCount g (setSt st v 1) < f := by
            have hlt := zeroCount_set1_lt (g := g) hv h0
            omega
          obtain ⟨out2, hfold⟩ := foldSteps_dfs_succeeds hwf f ih (outTargets g v)
            (setSt st v 1) sorted (fun t ht => outTargets_mem_ids hwf ht)
            hSk1 hInv1 hone1 hzc1
          obtain ⟨st2, s2⟩ := out2
          refine ⟨(setSt st2 v 2, s2 ++ [v]), ?_⟩
          simp only [dfs]
          rw [if_neg h1, if_pos h0, hfold]
        · refine ⟨(st, sorted), ?_⟩
          simp only [dfs]
          rw [if_neg h1, if_neg h0]

theorem visitAll_succeeds {g : Graph} (hwf : Wellformed g) (hac : Acyclic g)
    (fuel : Nat) :
    ∀ (vs : List String) (st : String → Nat) (sorted : List String),
      (∀ v ∈ vs, v ∈ ids g) → StOk st → NoOnes st → DfsInv g st sorted →
      zeroCount g st < fuel →
      ∃ out, visitAll g fuel (st, sorted) vs = Except.ok out := by
  intro vs
  induction vs with
  | nil =>
      intro st sorted _ _ _ _ _
      exact ⟨(st, sorted), rfl⟩
  | cons v vs ih =>
      intro st sorted hmem hsk hno hinv hzc
      by_cases h0 : st v = 0
      · obtain ⟨out1, hd⟩ := dfs_succeeds hwf hac fuel st sorted v
          (hmem v (List.mem_cons_self v vs)) hsk hinv
          (fun u hu => absurd hu (hno u)) hzc
        obtain ⟨st2, s2⟩ := out1
        obtain ⟨m1, _, _, hsk2, hinv2⟩ :=
          dfs_ok hwf fuel st sorted v st2 s2 (hmem v (List.mem_cons_self v vs))
            hsk hinv hd
        have hno2 : NoOnes st2 := by
          intro u
          rcases m1 u with h | ⟨h, h2⟩
          · rw [h]; exact hno u
          · omega
        have hzc2 : zeroCount g st2 < fuel := lt_of_le_of_lt (mono_zeroCount m1) hzc
        obtain ⟨out, hrest⟩ := ih st2 s2
          (fun u hu => hmem u (List.mem_cons_of_mem v hu)) hsk2 hno2 hinv2 hzc2
        refine ⟨out, ?_⟩
        simp only [visitAll]
        rw [if_pos h0, hd]
        exact hrest
      · obtain ⟨out, hrest⟩ := ih st sorted
          (fun u hu => hmem u (List.mem_cons_of_mem v hu)) hsk hno hinv hzc
        refine ⟨out, ?_⟩
        simp only [visitAll]
        rw [if_neg h0]
        exact hrest

theorem acyclic_of_rank (g : Graph) (rank : String → Nat)
    (h : ∀ e ∈ g.edges, rank e.source.id < rank e.target.id) : Acyclic g := by
  have hmono : ∀ a b, ReachesPlus g a b → rank a < rank b := by
    intro a b hab
    induction hab with
    | single hedge =>
        obtain ⟨e, he, hs, ht⟩ := hedge
        have h2 := h e he
        rw [hs, ht] at h2
        exact h2
    | tail _ hedge ih =>
        obtain ⟨e, he, hs, ht⟩ := hedge
        have h2 := h e he
        rw [hs, ht] at h2
        exact lt_trans ih h2
  intro v hv
  exact absurd (hmono v v hv) (lt_irrefl _)

/-- C1: on every well-formed acyclic graph (unique ids, edge endpoints in
the vertex set, no directed cycle), `topological_sort` returns a list of
the vertex identifiers whose length is the vertex count, containing every
vertex exactly once, with every edge's source placed strictly before its
target; the list is by definition the reverse of the depth-first
post-order append order. -/
theorem topological_sort_correct (g : Graph)
    (hwf : Wellformed g) (hnd : (ids g).Nodup) (hac : Acyclic g) :
    ∃ l, topological_sort g = Except.ok l ∧
      l.length = g.vertices.length ∧
      l.Perm (ids g) ∧
      (∀ v ∈ ids g, l.count v = 1) ∧
      (∀ e ∈ g.edges, l.indexOf e.source.id < l.indexOf e.target.id) ∧
      topological_sort g = (postOrderAppend g).map List.reverse := by
  have hinv0 : DfsInv g (fun _ => 0) [] := by
    refine ⟨?_, List.nodup_nil, ?_, ?_⟩
    · intro u
      simp
    · intro u hu
      cases hu
    · intro s hs
      cases hs
  have hsk0 : StOk (fun _ => 0) := fun _ => Nat.zero_le 2
  have hno0 : NoOnes (fun _ => 0) := fun _ => Nat.zero_ne_one
  have hzc0 : zeroCount g (fun _ => 0) < g.vertices.length + 1 :=
    Nat.lt_succ_of_le (zeroCount_le_card g _)
  obtain ⟨out, hvis⟩ := visitAll_succeeds hwf hac (g.vertices.length + 1) (ids g)
    (fun _ => 0) [] (fun _ hv => hv) hsk0 hno0 hinv0 hzc0
  obtain ⟨st', sorted'⟩ := out
  obtain ⟨_, hcov, _, _, hiff, hnd', hsub', hbef'⟩ :=
    visitAll_ok hwf (g.vertices.length + 1) (ids g) (fun _ => 0) [] st' sorted'
      (fun _ hv => hv) hsk0 hno0 hinv0 hvis
  have hmemiff : ∀ a, a ∈ sorted' ↔ a ∈ ids g := by
    intro a
    constructor
    · exact hsub' a
    · intro ha
      exact (hiff a).1 (hcov a ha)
  have hperm : sorted'.Perm (ids g) :=
    (List.perm_ext_iff_of_nodup hnd' hnd).2 hmemiff
  have hpost : postOrderAppend g = Except.ok sorted' := by
    unfold postOrderAppend
    rw [hvis]
  refine ⟨sorted'.reverse, ?_, ?_, ?_, ?_, ?_, rfl⟩
  · unfold topological_sort
    rw [hpost]
    rfl
  · rw [List.length_reverse, hperm.length_eq, ids, List.length_map]
  · exact (List.reverse_perm sorted').trans hperm
  · intro v hv
    have hvl : v ∈ sorted'.reverse := by
      rw [List.mem_reverse]
      exact (hmemiff v).2 hv
    exact List.count_eq_one_of_mem (List.nodup_reverse.2 hnd') hvl
  · intro e he
    have hsrcm : e.source.id ∈ sorted' := (hmemiff _).2 (hwf e he).1
    have htout : e.target.id ∈ outTargets g e.source.id :=
      mem_outTargets.2 ⟨e, he, rfl, rfl⟩
    exact before_reverse_indexOf hnd' (hbef' _ hsrcm _ htout)

/-- Witness for C1 at the spec's worked example: the sort returns
`[A, B, C]` and the edge A→B is respected by positions. -/
theorem topological_sort_correct_witness :
    topological_sort sampleGraph = Except.ok ["A", "B", "C"] ∧
    ["A", "B", "C"].indexOf "A" < ["A", "B", "C"].indexOf "B" := by
  obtain ⟨l, hl, _, _, _, hidx, _⟩ :=
    topological_sort_correct sampleGraph
      (by unfold Wellformed; decide)
      (by decide)
      (acyclic_of_rank sampleGraph sampleRank (by decide))
  have hE : topological_sort sampleGraph = Except.ok ["A", "B", "C"] := rfl
  have hlE : ["A", "B", "C"] = l := Except.ok.inj (hE.symm.trans hl)
  subst hlE
  refine ⟨hE, ?_⟩
  have h := hidx ⟨sampleVertex "A", sampleVertex "B"⟩
    (show (⟨sampleVertex "A", sampleVertex "B"⟩ : ContractEdge) ∈ sampleGraph.edges
      from List.mem_cons_self _ _)
  simp only [sampleVertex] at h
  exact h
